import Mathlib

/-!
Verification of the channels-last layout-invariant checker from
`intermediate_source/memory_format_tutorial.py`.

The checker instruments callables of an ML framework so that each call is
wrapped with a pre/post layout check (`contains_cl`, `print_inputs`,
`check_wrapper`/`check_cl`) and patches whole namespaces (`attribute`,
embedded here as `attribute_fn` because `attribute` is a Lean keyword).

Tensors are modelled by the observations the checker consumes: shape,
strides, device, element type, and the two contiguity answers of the
external framework (`t.is_contiguous()` and
`t.is_contiguous(memory_format=torch.channels_last)`), recorded as the
fields `contiguous` and `cl_contiguous`.
-/

/-- A tensor, as observed by the checker.  The fields `cl_contiguous` and
`contiguous` record the external framework's answers to
`t.is_contiguous(memory_format=torch.channels_last)` and
`t.is_contiguous()` for this tensor. -/
structure Tensor where
  shape : List Nat
  stride : List Nat
  device : String
  dtype : String
  cl_contiguous : Bool
  contiguous : Bool
deriving DecidableEq, Repr

/-- `t.dim()`: the number of dimensions. -/
def Tensor.dim (t : Tensor) : Nat := t.shape.length

/-- Modelled from the spec: the external framework's contiguity check walks
the dimensions in a given order with an expected-stride accumulator,
skipping size-1 dimensions (the spec notes degenerate size-1 shapes can
satisfy both layout predicates simultaneously).  `pairs` lists
(size, stride) in the order the layout visits dimensions. -/
def checkOrdered : Nat → List (Nat × Nat) → Bool
  | _, [] => true
  | expected, (sz, st) :: rest =>
    if sz = 1 then checkOrdered expected rest
    else if st = expected then checkOrdered (expected * sz) rest
    else false

/-- Modelled from the spec (glossary, "Contiguous (default) layout"): the
standard arrangement where strides decrease in the declared dimension
order; dimensions are visited from last to first. -/
def computeContiguous (shape stride : List Nat) : Bool :=
  checkOrdered 1 (List.reverse (shape.zip stride))

/-- Modelled from the spec (glossary, "Channels-last layout"): for a
4-dimensional (batch, channel, height, width) tensor the channel dimension
is most tightly packed; the check visits dimensions in the order
channel, width, height, batch, and holds only for 4-dimensional shapes. -/
def computeClContiguous (shape stride : List Nat) : Bool :=
  match shape, stride with
  | [n, c, h, w], [sn, sc, sh, sw] =>
    checkOrdered 1 [(c, sc), (w, sw), (h, sh), (n, sn)]
  | _, _ => false

/-- A concrete tensor whose contiguity flags are derived from its strides
by the modelled external predicates. -/
def mkTensor (shape stride : List Nat) (device dtype : String) : Tensor :=
  { shape := shape, stride := stride, device := device, dtype := dtype,
    cl_contiguous := computeClContiguous shape stride,
    contiguous := computeContiguous shape stride }

/-- A 4-dimensional tensor created directly in channels-last layout:
strides (height*width*channel, 1, width*channel, channel). -/
def mkChannelsLast (n c h w : Nat) (device dtype : String) : Tensor :=
  mkTensor [n, c, h, w] [h * w * c, 1, w * c, c] device dtype

/-- The same shape converted to the default contiguous layout:
strides (channel*height*width, height*width, width, 1). -/
def mkContiguous (n c h w : Nat) (device dtype : String) : Tensor :=
  mkTensor [n, c, h, w] [c * (h * w), h * w, w, 1] device dtype

/-- A positional argument of an instrumented call: a tensor leaf, an
ordered sequence (Python list or tuple) or an opaque non-tensor leaf. -/
inductive Arg where
  | tensor : Tensor → Arg
  | list : List Arg → Arg
  | tuple : List Arg → Arg
  | other : String → Arg
deriving Repr

/-- The per-tensor test of `contains_cl` (line 220 of the source):
contiguous under channels-last AND not contiguous under the default
layout. -/
def isClOnly (t : Tensor) : Bool :=
  t.cl_contiguous && !t.contiguous

mutual

/-- `contains_cl(args)` (source lines 217-225): walks the argument list;
a tensor satisfying the channels-last-only test returns true at once;
lists and tuples are recursed into; anything else is skipped. -/
def contains_cl : List Arg → Bool
  | [] => false
  | a :: rest => if containsArg a then true else contains_cl rest

/-- The body of the `for` loop of `contains_cl` for a single element. -/
def containsArg : Arg → Bool
  | Arg.tensor t => isClOnly t
  | Arg.list xs => contains_cl xs
  | Arg.tuple xs => contains_cl xs
  | Arg.other _ => false

end

mutual

/-- `print_inputs(args, indent)` (source lines 228-236), as the list of
printed lines: tensors show stride, shape, device, dtype; sequences print
their type and recurse with indentation increased by four spaces; any
other value is printed as-is. -/
def print_inputs : List Arg → String → List String
  | [], _ => []
  | a :: rest, indent => printArg a indent ++ print_inputs rest indent

/-- The lines printed by `print_inputs` for one element. -/
def printArg : Arg → String → List String
  | Arg.tensor t, indent =>
    [indent ++ " " ++ toString t.stride ++ " " ++ toString t.shape
      ++ " " ++ t.device ++ " " ++ t.dtype]
  | Arg.list xs, indent => (indent ++ " list") :: print_inputs xs (indent ++ "    ")
  | Arg.tuple xs, indent => (indent ++ " tuple") :: print_inputs xs (indent ++ "    ")
  | Arg.other s, indent => [indent ++ " " ++ s]

end

/-- A raised Python exception, up to the observations the claims are
about: its type and its message. -/
structure Exc where
  ty : String
  msg : String
deriving DecidableEq, Repr

/-- Keyword arguments: name-value pairs. -/
def Kwargs := List (String × Arg)

/-- An original callable: positional arguments and keyword arguments to
either a raised exception or a returned value. -/
def Callable := List Arg → Kwargs → Except Exc Arg

/-- The error raised on a detected layout regression (source line 261):
`Exception('Operator `name` lost channels_last property')`. -/
def layoutRegression (name : String) : Exc :=
  { ty := "Exception",
    msg := "Operator `" ++ name ++ "` lost channels_last property" }

/-- The header line "`name` inputs are:" printed before an argument dump. -/
def inputsHeader (name : String) : String :=
  "`" ++ name ++ "` inputs are:"

/-- The violation notice of source lines 255-256: callable name, result
shape, strides, device, dtype. -/
def clNotice (name : String) (r : Tensor) : String :=
  "`" ++ name ++ "` got channels_last input, but output is not channels_last: "
    ++ toString r.shape ++ " " ++ toString r.stride ++ " " ++ r.device ++ " " ++ r.dtype

/-- One observed execution of the wrapped callable: the lines printed, the
outcome (returned value or raised exception), and the invocations made of
the original callable, in order. -/
structure CallOut where
  output : List String
  result : Except Exc Arg
  calls : List (List Arg × Kwargs)

/-- `check_cl(*args, **kwargs)` (source lines 242-263), the closure built
by `check_wrapper`: computes `was_cl = contains_cl(args)`, invokes the
original once; on an exception prints the header, the argument dump and a
separator and re-raises the same exception; on success flags a violation
exactly when `was_cl` holds and the result is a 4-dimensional tensor not
contiguous under channels-last, in which case it prints the notice, the
header and the dump and raises the layout-regression error; otherwise it
returns the result unchanged with no output. -/
def check_cl (fn : Callable) (name : String) (args : List Arg) (kwargs : Kwargs) :
    CallOut :=
  let was_cl := contains_cl args
  match fn args kwargs with
  | Except.error e =>
    { output := inputsHeader name :: print_inputs args "" ++ ["-------------------"],
      result := Except.error e,
      calls := [(args, kwargs)] }
  | Except.ok result =>
    match result with
    | Arg.tensor r =>
      if was_cl && decide (r.dim = 4) && !r.cl_contiguous then
        { output := clNotice name r :: inputsHeader name :: print_inputs args "",
          result := Except.error (layoutRegression name),
          calls := [(args, kwargs)] }
      else
        { output := [], result := Except.ok result, calls := [(args, kwargs)] }
    | _ => { output := [], result := Except.ok result, calls := [(args, kwargs)] }

/-- `check_wrapper(fn)` (source lines 239-264): returns the wrapped
callable.  The Python closure reads `name = fn.__name__`; here the name is
passed alongside the callable. -/
def check_wrapper (fn : Callable) (name : String) :
    List Arg → Kwargs → CallOut :=
  check_cl fn name

/-- A member of a patched namespace, as observed by `attribute`: its name,
whether it is invocable (`'__call__' in dir(e)`), and whether replacing it
with `setattr` succeeds. -/
structure Member where
  name : String
  callable : Bool
  settable : Bool
deriving DecidableEq, Repr

/-- Whether a member was replaced by its instrumented wrapper or kept its
original identity. -/
inductive MemberState where
  | original
  | wrapped
deriving DecidableEq, Repr

/-- The fixed exclusion list of source lines 270-271. -/
def exclude_functions : List String :=
  ["is_cuda", "has_names", "numel", "stride", "Tensor", "is_contiguous", "__class__"]

/-- `i.startswith('_')`: whether the first character of the name is an
underscore. -/
def underscorePrefixed (s : String) : Bool :=
  match s.data with
  | [] => false
  | c :: _ => c == '_'

/-- The replacement condition of source line 272: not excluded, not
underscore-prefixed, and invocable. -/
def shouldWrap (m : Member) : Bool :=
  !exclude_functions.contains m.name && !underscorePrefixed m.name && m.callable

/-- The message printed when `setattr` fails for a member. -/
def setattrFailure (n : String) : String :=
  "cannot replace attribute " ++ n

/-- The body of the `attribute` loop for one member (source lines 269-277):
members passing `shouldWrap` are replaced via `setattr`; a failure there is
caught, the member name and the error are printed, and the member keeps its
original identity; all other members are left untouched. -/
def instrumentMember (m : Member) : MemberState × List String :=
  if shouldWrap m then
    if m.settable then (MemberState.wrapped, [])
    else (MemberState.original, [m.name, setattrFailure m.name])
  else (MemberState.original, [])

/-- `attribute(m)` (source lines 267-277), embedded as `attribute_fn`
(`attribute` is a Lean keyword): iterates over the members of the
namespace, applying `instrumentMember` to each in order; returns the
members with their final states and the concatenated log. -/
def attribute_fn : List Member → List (Member × MemberState) × List String
  | [] => ([], [])
  | m :: rest =>
    let s := instrumentMember m
    let r := attribute_fn rest
    ((m, s.1) :: r.1, s.2 ++ r.2)

mutual

/-- Specification-side flattening: the tensors reachable from an argument
list, in traversal order, recursing into lists and tuples and ignoring
every other non-tensor value.  Follows the spec's words for `scan`. -/
def tensorsOf : List Arg → List Tensor
  | [] => []
  | a :: rest => tensorsOfArg a ++ tensorsOf rest

/-- The tensors reachable from one argument. -/
def tensorsOfArg : Arg → List Tensor
  | Arg.tensor t => [t]
  | Arg.list xs => tensorsOf xs
  | Arg.tuple xs => tensorsOf xs
  | Arg.other _ => []

end

/-- A concrete 4-dimensional channels-last tensor (all sizes at least 2):
contiguous under channels-last only. -/
def tClOnly : Tensor := mkChannelsLast 2 3 4 5 "cpu" "torch.float32"

/-- The same shape in the default contiguous layout. -/
def tDefault : Tensor := mkContiguous 2 3 4 5 "cpu" "torch.float32"

/-- A degenerate channels-last tensor with size-1 dimensions: both layout
predicates hold for it simultaneously. -/
def tBoth : Tensor := mkChannelsLast 1 1 1 1 "cpu" "torch.float32"

theorem tClOnly_flags : tClOnly.cl_contiguous = true ∧ tClOnly.contiguous = false := by
  decide

theorem tDefault_flags : tDefault.cl_contiguous = false ∧ tDefault.contiguous = true := by
  decide

theorem tBoth_flags : tBoth.cl_contiguous = true ∧ tBoth.contiguous = true := by
  decide

mutual

theorem contains_cl_eq_any :
    ∀ args : List Arg, contains_cl args = (tensorsOf args).any isClOnly
  | [] => by simp [contains_cl, tensorsOf]
  | a :: rest => by
    have h1 := containsArg_eq_any a
    have h2 := contains_cl_eq_any rest
    rw [contains_cl, tensorsOf, List.any_append, ← h1, ← h2]
    cases containsArg a <;> simp

theorem containsArg_eq_any :
    ∀ a : Arg, containsArg a = (tensorsOfArg a).any isClOnly
  | Arg.tensor t => by simp [containsArg, tensorsOfArg]
  | Arg.list xs => by
    have h := contains_cl_eq_any xs
    rw [containsArg, tensorsOfArg, h]
  | Arg.tuple xs => by
    have h := contains_cl_eq_any xs
    rw [containsArg, tensorsOfArg, h]
  | Arg.other s => by simp [containsArg, tensorsOfArg]

end

theorem tensorsOf_append (l1 l2 : List Arg) :
    tensorsOf (l1 ++ l2) = tensorsOf l1 ++ tensorsOf l2 := by
  induction l1 with
  | nil => simp [tensorsOf]
  | cons a rest ih => simp [tensorsOf, ih]

/-- C2: `contains_cl` returns true iff, walking the argument list
recursively (into lists and tuples, ignoring other non-tensor values),
some tensor is contiguous under channels-last AND not contiguous under the
default layout; any argument list with such a tensor at some position
yields true regardless of what follows it, and it is false when no
reachable tensor satisfies the conjunction. -/
theorem contains_cl_spec_equiv (args pre post : List Arg) (t : Tensor) :
    (contains_cl args = true ↔ ∃ x ∈ tensorsOf args, isClOnly x = true)
    ∧ (isClOnly t = true → contains_cl (pre ++ Arg.tensor t :: post) = true)
    ∧ ((∀ x ∈ tensorsOf args, isClOnly x = false) → contains_cl args = false) := by
  refine ⟨?_, ?_, ?_⟩
  · rw [contains_cl_eq_any]
    exact List.any_eq_true
  · intro ht
    rw [contains_cl_eq_any, tensorsOf_append]
    simp only [tensorsOf, tensorsOfArg, List.any_eq_true]
    exact ⟨t, by simp, ht⟩
  · intro hall
    rw [contains_cl_eq_any]
    simp only [List.any_eq_false]
    intro x hx
    simp [hall x hx]

theorem contains_cl_spec_equiv_witness :
    (contains_cl [Arg.list [Arg.tensor tClOnly]] = true ↔
      ∃ x ∈ tensorsOf [Arg.list [Arg.tensor tClOnly]], isClOnly x = true)
    ∧ contains_cl ([Arg.other "eps"] ++ Arg.tensor tClOnly :: [Arg.tensor tDefault]) = true :=
  ⟨(contains_cl_spec_equiv [Arg.list [Arg.tensor tClOnly]] [] [] tClOnly).1,
   (contains_cl_spec_equiv [] [Arg.other "eps"] [Arg.tensor tDefault] tClOnly).2.1
     (by decide)⟩

/-- C3: a tensor for which the channels-last contiguity predicate and the
default contiguity predicate both hold is never reported by the scan: on a
list containing only such tensors, `contains_cl` returns false. -/
theorem scan_not_flag_degenerate (ts : List Tensor)
    (h : ∀ t ∈ ts, t.cl_contiguous = true ∧ t.contiguous = true) :
    contains_cl (ts.map Arg.tensor) = false := by
  induction ts with
  | nil => simp [contains_cl]
  | cons t rest ih =>
    have ht := h t (by simp)
    have hrest := ih (fun x hx => h x (by simp [hx]))
    simp [contains_cl, containsArg, isClOnly, ht.1, ht.2, hrest]

theorem scan_not_flag_degenerate_witness :
    contains_cl ([tBoth].map Arg.tensor) = false :=
  scan_not_flag_degenerate [tBoth] (by decide)

/-- C6 counterexample: the 4-dimensional tensor of shape (1, 1, 1, 1)
created directly in channels-last layout is also contiguous under the
default layout, so the scan returns false on it, refuting the claim that
every channels-last-created 4-dimensional tensor is reported. -/
theorem scan_cl_created_counterexample :
    ¬ contains_cl [Arg.tensor (mkChannelsLast 1 1 1 1 "cpu" "torch.float32")] = true := by
  simp [contains_cl, containsArg, isClOnly, mkChannelsLast, mkTensor,
    computeClContiguous, computeContiguous, checkOrdered]

theorem computeContiguous_canonical (n c h w : Nat) :
    computeContiguous [n, c, h, w] [c * (h * w), h * w, w, 1] = true := by
  by_cases hw : w = 1 <;> by_cases hh : h = 1 <;> by_cases hc : c = 1 <;>
    by_cases hn : n = 1 <;>
    simp [computeContiguous, checkOrdered, List.zip, hw, hh, hc, hn,
      Nat.mul_comm, Nat.mul_assoc, Nat.mul_left_comm]

theorem computeClContiguous_canonical (n c h w : Nat) :
    computeClContiguous [n, c, h, w] [h * w * c, 1, w * c, c] = true := by
  by_cases hw : w = 1 <;> by_cases hh : h = 1 <;> by_cases hc : c = 1 <;>
    by_cases hn : n = 1 <;>
    simp [computeClContiguous, checkOrdered, hw, hh, hc, hn,
      Nat.mul_comm, Nat.mul_assoc, Nat.mul_left_comm]

theorem clStrides_not_contig (n c h w : Nat) (hc : 2 ≤ c)
    (hhw : 2 ≤ h ∨ 2 ≤ w) (hw : 1 ≤ w) :
    computeContiguous [n, c, h, w] [h * w * c, 1, w * c, c] = false := by
  have hc1 : c ≠ 1 := by omega
  rcases Nat.lt_or_ge w 2 with hw2 | hw2
  · have hw1 : w = 1 := by omega
    have hh1 : h ≠ 1 := by
      rcases hhw with h2 | h2
      · omega
      · omega
    subst hw1
    simp [computeContiguous, checkOrdered, List.zip, hc1, hh1]
  · have hw1 : w ≠ 1 := by omega
    simp [computeContiguous, checkOrdered, List.zip, hc1, hw1]

theorem clStrides_contig_degenerate (n c h w : Nat)
    (hdeg : c = 1 ∨ (h = 1 ∧ w = 1)) :
    computeContiguous [n, c, h, w] [h * w * c, 1, w * c, c] = true := by
  rcases hdeg with hc1 | ⟨hh1, hw1⟩
  · subst hc1
    by_cases hw : w = 1 <;> by_cases hh : h = 1 <;> by_cases hn : n = 1 <;>
      simp [computeContiguous, checkOrdered, List.zip, hw, hh, hn,
        Nat.mul_comm, Nat.mul_assoc, Nat.mul_left_comm]
  · subst hh1
    subst hw1
    by_cases hc : c = 1 <;> by_cases hn : n = 1 <;>
      simp [computeContiguous, checkOrdered, List.zip, hc, hn,
        Nat.mul_comm, Nat.mul_assoc, Nat.mul_left_comm]

/-- C6 (amended): for every nonempty 4-dimensional tensor created
directly in channels-last layout (batch, channel, height, width all at
least 1), the scan returns true if and only if the channel size is at
least 2 and at least one of height and width is at least 2 — in
particular batch size 1 is allowed; in the remaining degenerate cases
(channel size 1, or height and width both 1, such as shape (1,1,1,1))
the tensor is also contiguous under the default layout and the scan
returns false; and for the same shape converted to the default
contiguous layout, the scan always returns false. -/
theorem scan_cl_created_amended (n c h w : Nat) (d dt : String)
    (hn : 1 ≤ n) (hc : 1 ≤ c) (hh : 1 ≤ h) (hw : 1 ≤ w) :
    (contains_cl [Arg.tensor (mkChannelsLast n c h w d dt)] = true ↔
      2 ≤ c ∧ (2 ≤ h ∨ 2 ≤ w))
    ∧ ((c = 1 ∨ (h = 1 ∧ w = 1)) →
        (mkChannelsLast n c h w d dt).contiguous = true
        ∧ contains_cl [Arg.tensor (mkChannelsLast n c h w d dt)] = false)
    ∧ contains_cl [Arg.tensor (mkContiguous n c h w d dt)] = false := by
  have hdegfalse : ∀ hdeg : c = 1 ∨ (h = 1 ∧ w = 1),
      (mkChannelsLast n c h w d dt).contiguous = true
      ∧ contains_cl [Arg.tensor (mkChannelsLast n c h w d dt)] = false := by
    intro hdeg
    have hcontig := clStrides_contig_degenerate n c h w hdeg
    constructor
    · simp [mkChannelsLast, mkTensor, hcontig]
    · simp [contains_cl, containsArg, isClOnly, mkChannelsLast, mkTensor, hcontig]
  refine ⟨⟨?_, ?_⟩, hdegfalse, ?_⟩
  · intro htrue
    by_contra hnot
    have hdeg : c = 1 ∨ (h = 1 ∧ w = 1) := by omega
    rw [(hdegfalse hdeg).2] at htrue
    exact Bool.false_ne_true htrue
  · rintro ⟨hc2, hhw⟩
    have hcl := computeClContiguous_canonical n c h w
    have hnc := clStrides_not_contig n c h w hc2 hhw hw
    simp [contains_cl, containsArg, isClOnly, mkChannelsLast, mkTensor, hcl, hnc]
  · have hcontig := computeContiguous_canonical n c h w
    simp [contains_cl, containsArg, isClOnly, mkContiguous, mkTensor, hcontig]

theorem scan_cl_created_amended_witness :
    contains_cl [Arg.tensor (mkChannelsLast 1 3 4 5 "cpu" "torch.float32")] = true
    ∧ contains_cl [Arg.tensor (mkChannelsLast 2 1 3 4 "cpu" "torch.float32")] = false
    ∧ contains_cl [Arg.tensor (mkContiguous 1 3 4 5 "cpu" "torch.float32")] = false :=
  ⟨(scan_cl_created_amended 1 3 4 5 "cpu" "torch.float32"
      (by decide) (by decide) (by decide) (by decide)).1.2
      ⟨by decide, Or.inl (by decide)⟩,
   ((scan_cl_created_amended 2 1 3 4 "cpu" "torch.float32"
      (by decide) (by decide) (by decide) (by decide)).2.1 (Or.inl rfl)).2,
   (scan_cl_created_amended 1 3 4 5 "cpu" "torch.float32"
      (by decide) (by decide) (by decide) (by decide)).2.2⟩

theorem check_cl_of_error (fn : Callable) (name : String) (args : List Arg)
    (kwargs : Kwargs) (e : Exc) (h : fn args kwargs = Except.error e) :
    check_cl fn name args kwargs =
      { output := inputsHeader name :: print_inputs args "" ++ ["-------------------"],
        result := Except.error e, calls := [(args, kwargs)] } := by
  unfold check_cl
  rw [h]

theorem check_cl_of_ok_tensor (fn : Callable) (name : String) (args : List Arg)
    (kwargs : Kwargs) (rt : Tensor) (h : fn args kwargs = Except.ok (Arg.tensor rt)) :
    check_cl fn name args kwargs =
      if contains_cl args && decide (rt.dim = 4) && !rt.cl_contiguous then
        { output := clNotice name rt :: inputsHeader name :: print_inputs args "",
          result := Except.error (layoutRegression name), calls := [(args, kwargs)] }
      else
        { output := [], result := Except.ok (Arg.tensor rt), calls := [(args, kwargs)] } := by
  unfold check_cl
  rw [h]

theorem check_cl_of_ok_other (fn : Callable) (name : String) (args : List Arg)
    (kwargs : Kwargs) (r : Arg) (h : fn args kwargs = Except.ok r)
    (hr : ∀ rt, r ≠ Arg.tensor rt) :
    check_cl fn name args kwargs =
      { output := [], result := Except.ok r, calls := [(args, kwargs)] } := by
  unfold check_cl
  rw [h]
  cases r with
  | tensor rt => exact absurd rfl (hr rt)
  | list xs => rfl
  | tuple xs => rfl
  | other s => rfl

theorem violation_bool_iff (args : List Arg) (rt : Tensor) :
    (contains_cl args && decide (rt.dim = 4) && !rt.cl_contiguous) = true ↔
      (contains_cl args = true ∧ rt.dim = 4 ∧ rt.cl_contiguous = false) := by
  simp [Bool.and_eq_true, and_assoc]

/-- C1: if the pre-call scan of the positional arguments found a
channels-last tensor and the call succeeds returning a single
4-dimensional tensor that is not contiguous under channels-last, the
wrapper raises the layout-regression error naming the callable, after
printing the violation notice and the argument dump; in every other
successful case it raises no such error and returns the result. -/
theorem check_cl_layout_regression (fn : Callable) (name : String) (args : List Arg)
    (kwargs : Kwargs) (r : Arg) (h : fn args kwargs = Except.ok r) :
    ((∃ rt, r = Arg.tensor rt ∧ contains_cl args = true
        ∧ rt.dim = 4 ∧ rt.cl_contiguous = false) →
      (check_cl fn name args kwargs).result = Except.error (layoutRegression name)
      ∧ (layoutRegression name).msg =
          "Operator `" ++ name ++ "` lost channels_last property"
      ∧ ∀ rt, r = Arg.tensor rt →
          (check_cl fn name args kwargs).output =
            clNotice name rt :: inputsHeader name :: print_inputs args "")
    ∧ ((¬ ∃ rt, r = Arg.tensor rt ∧ contains_cl args = true
        ∧ rt.dim = 4 ∧ rt.cl_contiguous = false) →
      (check_cl fn name args kwargs).result = Except.ok r) := by
  constructor
  · rintro ⟨rt, hrt, hcl, hdim, hncl⟩
    subst hrt
    have hb : (contains_cl args && decide (rt.dim = 4) && !rt.cl_contiguous) = true :=
      (violation_bool_iff args rt).2 ⟨hcl, hdim, hncl⟩
    rw [check_cl_of_ok_tensor fn name args kwargs rt h, if_pos hb]
    refine ⟨rfl, rfl, ?_⟩
    intro rt2 hrt2
    cases hrt2
    rfl
  · intro hno
    cases hr : r with
    | tensor rt =>
      subst hr
      have hb : (contains_cl args && decide (rt.dim = 4) && !rt.cl_contiguous) = false := by
        cases hbb : (contains_cl args && decide (rt.dim = 4) && !rt.cl_contiguous) with
        | false => rfl
        | true => exact absurd ⟨rt, rfl, (violation_bool_iff args rt).1 hbb⟩ hno
      rw [check_cl_of_ok_tensor fn name args kwargs rt h, if_neg (by simp [hb])]
    | list xs => subst hr; rw [check_cl_of_ok_other fn name args kwargs _ h (by intro rt hc; exact Arg.noConfusion hc)]
    | tuple xs => subst hr; rw [check_cl_of_ok_other fn name args kwargs _ h (by intro rt hc; exact Arg.noConfusion hc)]
    | other s => subst hr; rw [check_cl_of_ok_other fn name args kwargs _ h (by intro rt hc; exact Arg.noConfusion hc)]

theorem check_cl_layout_regression_witness :
    (check_cl (fun _ _ => Except.ok (Arg.tensor tDefault)) "conv2d"
      [Arg.tensor tClOnly] []).result = Except.error (layoutRegression "conv2d") :=
  ((check_cl_layout_regression (fun _ _ => Except.ok (Arg.tensor tDefault)) "conv2d"
      [Arg.tensor tClOnly] [] (Arg.tensor tDefault) rfl).1
    ⟨tDefault,
      rfl,
      by simp [contains_cl, containsArg, isClOnly, tClOnly, mkChannelsLast, mkTensor,
        computeClContiguous, computeContiguous, checkOrdered],
      by decide,
      by decide⟩).1

/-- C4: when the original callable raises, the wrapper prints the
callable's name followed by the structured dump of the positional
arguments and a separator, and re-raises the identical error (same type
and message), never suppressing or replacing it. -/
theorem check_cl_reraises (fn : Callable) (name : String) (args : List Arg)
    (kwargs : Kwargs) (e : Exc) (h : fn args kwargs = Except.error e) :
    (check_cl fn name args kwargs).result = Except.error e
    ∧ (check_cl fn name args kwargs).output =
        inputsHeader name :: print_inputs args "" ++ ["-------------------"] := by
  rw [check_cl_of_error fn name args kwargs e h]
  exact ⟨rfl, rfl⟩

theorem check_cl_reraises_witness :
    (check_cl (fun _ _ => Except.error { ty := "ValueError", msg := "bad shape" })
      "conv2d" [Arg.tensor tClOnly] []).result =
        Except.error { ty := "ValueError", msg := "bad shape" }
    ∧ (check_cl (fun _ _ => Except.error { ty := "ValueError", msg := "bad shape" })
      "conv2d" [Arg.tensor tClOnly] []).output =
        inputsHeader "conv2d" :: print_inputs [Arg.tensor tClOnly] "" ++ ["-------------------"] :=
  check_cl_reraises (fun _ _ => Except.error { ty := "ValueError", msg := "bad shape" })
    "conv2d" [Arg.tensor tClOnly] [] { ty := "ValueError", msg := "bad shape" } rfl

/-- C5: the wrapped callable has the calling convention of the original
(positional plus keyword arguments), invokes the original exactly once
with exactly those arguments (its behaviour depends on the original only
through that one application), and when no violation is detected it
returns the original result unchanged with no diagnostic output. -/
theorem check_wrapper_transparent (fn fn2 : Callable) (name : String)
    (args : List Arg) (kwargs : Kwargs) (r : Arg) :
    (check_wrapper fn name args kwargs).calls = [(args, kwargs)]
    ∧ (fn args kwargs = fn2 args kwargs →
        check_wrapper fn name args kwargs = check_wrapper fn2 name args kwargs)
    ∧ (fn args kwargs = Except.ok r →
        (¬ ∃ rt, r = Arg.tensor rt ∧ contains_cl args = true
          ∧ rt.dim = 4 ∧ rt.cl_contiguous = false) →
        check_wrapper fn name args kwargs =
          { output := [], result := Except.ok r, calls := [(args, kwargs)] }) := by
  refine ⟨?_, ?_, ?_⟩
  · unfold check_wrapper check_cl
    cases fn args kwargs with
    | error e => rfl
    | ok result =>
      cases result with
      | tensor rt =>
        by_cases hb : (contains_cl args && decide (rt.dim = 4) && !rt.cl_contiguous) = true
        · simp [hb]
        · simp [hb]
      | list xs => rfl
      | tuple xs => rfl
      | other s => rfl
  · intro h
    unfold check_wrapper check_cl
    rw [h]
  · intro h hno
    unfold check_wrapper
    cases hr : r with
    | tensor rt =>
      subst hr
      have hb : (contains_cl args && decide (rt.dim = 4) && !rt.cl_contiguous) = false := by
        cases hbb : (contains_cl args && decide (rt.dim = 4) && !rt.cl_contiguous) with
        | false => rfl
        | true => exact absurd ⟨rt, rfl, (violation_bool_iff args rt).1 hbb⟩ hno
      rw [check_cl_of_ok_tensor fn name args kwargs rt h, if_neg (by simp [hb])]
    | list xs =>
      subst hr
      rw [check_cl_of_ok_other fn name args kwargs _ h (by intro rt hc; exact Arg.noConfusion hc)]
    | tuple xs =>
      subst hr
      rw [check_cl_of_ok_other fn name args kwargs _ h (by intro rt hc; exact Arg.noConfusion hc)]
    | other s =>
      subst hr
      rw [check_cl_of_ok_other fn name args kwargs _ h (by intro rt hc; exact Arg.noConfusion hc)]

/-- A fake two-argument callable returning its first argument (a
layout-preserving clone of it). -/
def cloneFirst : Callable := fun args _ =>
  match args with
  | a :: _ => Except.ok a
  | [] => Except.error { ty := "TypeError", msg := "missing argument" }

theorem check_wrapper_transparent_witness :
    check_wrapper cloneFirst "clone" [Arg.tensor tClOnly, Arg.tensor tDefault] [] =
      { output := [], result := Except.ok (Arg.tensor tClOnly),
        calls := [([Arg.tensor tClOnly, Arg.tensor tDefault], [])] } :=
  (check_wrapper_transparent cloneFirst cloneFirst "clone"
      [Arg.tensor tClOnly, Arg.tensor tDefault] [] (Arg.tensor tClOnly)).2.2 rfl
    (by
      rintro ⟨rt, hrt, hcl, hdim, hncl⟩
      cases hrt
      revert hncl
      decide)

/-- C9: keyword arguments never influence the layout check or the
diagnostics: the wrapper's printed output and outcome depend on the
keyword arguments only through the original call's answer, and when the
positional arguments contain no channels-last tensor a successful call is
returned unchanged even if a channels-last tensor was passed as a keyword
argument and the output is a 4-dimensional default-layout tensor. -/
theorem check_cl_kwargs_ignored (fn : Callable) (name : String) (args : List Arg)
    (kwargs kwargs2 : Kwargs) (r : Arg) :
    (fn args kwargs = fn args kwargs2 →
      (check_cl fn name args kwargs).output = (check_cl fn name args kwargs2).output
      ∧ (check_cl fn name args kwargs).result = (check_cl fn name args kwargs2).result)
    ∧ (fn args kwargs = Except.ok r → contains_cl args = false →
      (check_cl fn name args kwargs).result = Except.ok r) := by
  constructor
  · intro h
    unfold check_cl
    rw [h]
    cases fn args kwargs2 with
    | error e => exact ⟨rfl, rfl⟩
    | ok result =>
      cases result with
      | tensor rt =>
        by_cases hb : (contains_cl args && decide (rt.dim = 4) && !rt.cl_contiguous) = true
        · simp [hb]
        · simp [hb]
      | list xs => exact ⟨rfl, rfl⟩
      | tuple xs => exact ⟨rfl, rfl⟩
      | other s => exact ⟨rfl, rfl⟩
  · intro h hcl
    cases hr : r with
    | tensor rt =>
      subst hr
      rw [check_cl_of_ok_tensor fn name args kwargs rt h, if_neg (by simp [hcl])]
    | list xs =>
      subst hr
      rw [check_cl_of_ok_other fn name args kwargs _ h (by intro rt hc; exact Arg.noConfusion hc)]
    | tuple xs =>
      subst hr
      rw [check_cl_of_ok_other fn name args kwargs _ h (by intro rt hc; exact Arg.noConfusion hc)]
    | other s =>
      subst hr
      rw [check_cl_of_ok_other fn name args kwargs _ h (by intro rt hc; exact Arg.noConfusion hc)]

theorem check_cl_kwargs_ignored_witness :
    (check_cl (fun _ _ => Except.ok (Arg.tensor tDefault)) "conv2d" []
      [("input", Arg.tensor tClOnly)]).result = Except.ok (Arg.tensor tDefault) :=
  (check_cl_kwargs_ignored (fun _ _ => Except.ok (Arg.tensor tDefault)) "conv2d" []
      [("input", Arg.tensor tClOnly)] [] (Arg.tensor tDefault)).2 rfl
    (by simp [contains_cl])

/-- C10: the input scan carries no dimensionality restriction: any tensor
whose external contiguity answers are channels-last-contiguous and not
default-contiguous sets the flag, with no hypothesis on its rank, and the
4-dimensional restriction is applied only to the output, so such an input
of any rank makes a 4-dimensional non-channels-last output raise the
layout-regression error. -/
theorem scan_rank_agnostic (t rt : Tensor) (fn : Callable) (name : String)
    (kwargs : Kwargs) (hcl : t.cl_contiguous = true) (hdef : t.contiguous = false)
    (hfn : fn [Arg.tensor t] kwargs = Except.ok (Arg.tensor rt))
    (hdim : rt.dim = 4) (hrcl : rt.cl_contiguous = false) :
    contains_cl [Arg.tensor t] = true
    ∧ (check_cl fn name [Arg.tensor t] kwargs).result =
        Except.error (layoutRegression name) := by
  have hscan : contains_cl [Arg.tensor t] = true := by
    simp [contains_cl, containsArg, isClOnly, hcl, hdef]
  refine ⟨hscan, ?_⟩
  rw [check_cl_of_ok_tensor fn name [Arg.tensor t] kwargs rt hfn,
    if_pos ((violation_bool_iff [Arg.tensor t] rt).2 ⟨hscan, hdim, hrcl⟩)]

/-- A rank-2 tensor whose recorded external contiguity answers are
channels-last-contiguous and not default-contiguous. -/
def tRank2 : Tensor :=
  { shape := [3, 5], stride := [5, 1], device := "cpu", dtype := "torch.float32",
    cl_contiguous := true, contiguous := false }

theorem scan_rank_agnostic_witness :
    contains_cl [Arg.tensor tRank2] = true
    ∧ (check_cl (fun _ _ => Except.ok (Arg.tensor tDefault)) "reshape"
        [Arg.tensor tRank2] []).result = Except.error (layoutRegression "reshape") :=
  scan_rank_agnostic tRank2 tDefault (fun _ _ => Except.ok (Arg.tensor tDefault))
    "reshape" [] rfl rfl rfl (by decide) (by decide)

theorem attribute_fn_fst (ms : List Member) :
    (attribute_fn ms).1 = ms.map (fun m => (m, (instrumentMember m).1)) := by
  induction ms with
  | nil => rfl
  | cons m rest ih => simp [attribute_fn, ih]

theorem attribute_fn_append (l1 l2 : List Member) :
    attribute_fn (l1 ++ l2) =
      ((attribute_fn l1).1 ++ (attribute_fn l2).1,
       (attribute_fn l1).2 ++ (attribute_fn l2).2) := by
  induction l1 with
  | nil => simp [attribute_fn]
  | cons m rest ih => simp [attribute_fn, ih]

/-- A member that the loop would instrument, but whose in-place
replacement fails (a read-only attribute). -/
def roMember : Member := { name := "grad_fn", callable := true, settable := false }

/-- C7 counterexample: `roMember` is invocable, not in the exclusion list
and not underscore-prefixed, yet because its in-place replacement fails it
keeps its original identity, refuting the claim that every such member is
replaced by its instrumented wrapper. -/
theorem attribute_fn_replace_counterexample :
    shouldWrap roMember = true
    ∧ (attribute_fn [roMember]).1 = [(roMember, MemberState.original)] := by
  constructor
  · decide
  · rfl

/-- C7 (amended): the pass keeps every member in place; a member that is
excluded, underscore-prefixed or not invocable keeps its original
identity; a member that is invocable, not excluded, not
underscore-prefixed and whose replacement succeeds is replaced by its
instrumented wrapper. -/
theorem attribute_fn_members (ms : List Member) (i : Nat) (hi : i < ms.length) :
    ∃ hj : i < (attribute_fn ms).1.length,
      ((attribute_fn ms).1[i]).1 = ms[i]
      ∧ ((exclude_functions.contains (ms[i]).name = true
            ∨ underscorePrefixed (ms[i]).name = true
            ∨ (ms[i]).callable = false) →
          ((attribute_fn ms).1[i]).2 = MemberState.original)
      ∧ ((exclude_functions.contains (ms[i]).name = false
            ∧ underscorePrefixed (ms[i]).name = false
            ∧ (ms[i]).callable = true
            ∧ (ms[i]).settable = true) →
          ((attribute_fn ms).1[i]).2 = MemberState.wrapped) := by
  have hlen : (attribute_fn ms).1.length = ms.length := by
    rw [attribute_fn_fst]
    exact List.length_map ms _
  have hj : i < (attribute_fn ms).1.length := by omega
  refine ⟨hj, ?_⟩
  have hget : (attribute_fn ms).1[i] = (ms[i], (instrumentMember ms[i]).1) := by
    have := attribute_fn_fst ms
    rw [List.getElem_of_eq this, List.getElem_map]
  rw [hget]
  refine ⟨rfl, ?_, ?_⟩
  · intro hcase
    have hsw : shouldWrap (ms[i]) = false := by
      rcases hcase with hx | hx | hx
      · have hx2 : (ms[i]).name ∈ exclude_functions := by simpa using hx
        simp [shouldWrap, hx2]
      · simp [shouldWrap, hx]
      · simp [shouldWrap, hx]
    simp [instrumentMember, hsw]
  · rintro ⟨h1, h2, h3, h4⟩
    have h12 : (ms[i]).name ∉ exclude_functions := by simpa using h1
    have hsw : shouldWrap (ms[i]) = true := by
      simp [shouldWrap, h12, h2, h3]
    simp [instrumentMember, hsw, h4]

/-- A namespace with one excluded member (an attribute accessor) and one
normal callable. -/
def nsMembers : List Member :=
  [{ name := "stride", callable := true, settable := true },
   { name := "conv2d", callable := true, settable := true }]

theorem attribute_fn_members_witness :
    (∃ hj : 0 < (attribute_fn nsMembers).1.length,
      ((attribute_fn nsMembers).1[0]).2 = MemberState.original)
    ∧ (∃ hj : 1 < (attribute_fn nsMembers).1.length,
      ((attribute_fn nsMembers).1[1]).2 = MemberState.wrapped) := by
  constructor
  · obtain ⟨hj, _, horig, _⟩ := attribute_fn_members nsMembers 0 (by decide)
    exact ⟨hj, horig (by decide)⟩
  · obtain ⟨hj, _, _, hwrap⟩ := attribute_fn_members nsMembers 1 (by decide)
    exact ⟨hj, hwrap (by decide)⟩

/-- C8: a member whose replacement fails is logged (its name and the
failure) and left in its original state, and the pass still processes
every member before and after it exactly as it otherwise would: one
uninstrumentable member never aborts the overall pass. -/
theorem attribute_fn_continues (pre post : List Member) (bad : Member)
    (hb : shouldWrap bad = true) (hs : bad.settable = false) :
    (attribute_fn (pre ++ bad :: post)).1 =
      (attribute_fn pre).1 ++ (bad, MemberState.original) :: (attribute_fn post).1
    ∧ (attribute_fn (pre ++ bad :: post)).2 =
      (attribute_fn pre).2 ++ bad.name :: setattrFailure bad.name :: (attribute_fn post).2 := by
  have hbad : instrumentMember bad = (MemberState.original, [bad.name, setattrFailure bad.name]) := by
    simp [instrumentMember, hb, hs]
  rw [attribute_fn_append pre (bad :: post)]
  constructor
  · simp [attribute_fn, hbad]
  · simp [attribute_fn, hbad]

theorem attribute_fn_continues_witness :
    (attribute_fn ([{ name := "relu", callable := true, settable := true }] ++
        roMember :: [{ name := "conv2d", callable := true, settable := true }])).1 =
      (attribute_fn [{ name := "relu", callable := true, settable := true }]).1 ++
        (roMember, MemberState.original) ::
          (attribute_fn [{ name := "conv2d", callable := true, settable := true }]).1
    ∧ (attribute_fn ([{ name := "relu", callable := true, settable := true }] ++
        roMember :: [{ name := "conv2d", callable := true, settable := true }])).2 =
      (attribute_fn [{ name := "relu", callable := true, settable := true }]).2 ++
        roMember.name :: setattrFailure roMember.name ::
          (attribute_fn [{ name := "conv2d", callable := true, settable := true }]).2 :=
  attribute_fn_continues [{ name := "relu", callable := true, settable := true }]
    [{ name := "conv2d", callable := true, settable := true }] roMember
    (by decide) (by decide)
